import Mathlib

/-!
Shallow embedding of `dbus/dbus.go` from the go-systemd repository.

The file models the two stateful cores of that module:

* the job-completion correlator (`subscriberT`, `startJob`, and the
  notification-listener loop body installed by `initSubscriber`), and
* the periodic snapshot-diff subscription engine
  (`SubscribeUnitsCustom`'s polling loop: building the current snapshot
  from `ListUnits`, diffing it against the retained previous snapshot,
  and publishing on the status/error channels).

Go maps are embedded as association lists (`List (String × β)`) with
map-style insert/lookup/delete; Go channels written by the code are
embedded as the list of values written to them so far (a channel heap
`Nat → List String` for the per-job completion channels, plain lists for
the poller's output channels).  External calls (the D-Bus transport call
in `startJob`, `ListUnits` in the poll loop) are oracles: their outcome
is passed in as an `Except` argument.
-/

/-- Go map lookup `m[k]` on an association list (first binding wins;
the lists we build keep keys distinct, mirroring a Go map). -/
def mlookup {β : Type} : List (String × β) → String → Option β
  | [], _ => none
  | (k, v) :: rest, q => if q = k then some v else mlookup rest q

/-- Go map assignment `m[k] = v`: replace the binding of `k` if present,
otherwise append a fresh binding. -/
def minsert {β : Type} : List (String × β) → String → β → List (String × β)
  | [], k, v => [(k, v)]
  | (k', v') :: rest, k, v =>
    if k = k' then (k, v) :: rest else (k', v') :: minsert rest k v

/-- Go map deletion `delete(m, k)`: drop every binding of `k`. -/
def mdelete {β : Type} : List (String × β) → String → List (String × β)
  | [], _ => []
  | (k', v') :: rest, k =>
    if k = k' then mdelete rest k else (k', v') :: mdelete rest k

theorem mlookup_minsert {β : Type} (m : List (String × β)) (k : String) (v : β) (q : String) :
    mlookup (minsert m k v) q = if q = k then some v else mlookup m q := by
  induction m with
  | nil => simp [minsert, mlookup]
  | cons hd tl ih =>
    obtain ⟨k', v'⟩ := hd
    by_cases hk : k = k'
    · subst hk
      by_cases hq : q = k <;> simp [minsert, mlookup, hq]
    · by_cases hq : q = k'
      · subst hq
        simp [minsert, mlookup, hk, Ne.symm hk, ih]
      · simp [minsert, mlookup, hk, hq, ih]

theorem mlookup_mdelete {β : Type} (m : List (String × β)) (k : String) (q : String) :
    mlookup (mdelete m k) q = if q = k then none else mlookup m q := by
  induction m with
  | nil => simp [mdelete, mlookup]
  | cons hd tl ih =>
    obtain ⟨k', v'⟩ := hd
    by_cases hk : k = k'
    · subst hk
      by_cases hq : q = k
      · subst hq
        simp [mdelete, mlookup, ih]
      · simp [mdelete, mlookup, hq, ih]
    · by_cases hq : q = k'
      · subst hq
        simp [mdelete, mlookup, hk, Ne.symm hk, ih]
      · simp [mdelete, mlookup, hk, hq, ih]

theorem mlookup_mem {β : Type} {m : List (String × β)} {q : String} {v : β}
    (h : mlookup m q = some v) : (q, v) ∈ m := by
  induction m with
  | nil => simp [mlookup] at h
  | cons hd tl ih =>
    obtain ⟨k', v'⟩ := hd
    by_cases hq : q = k'
    · subst hq
      simp [mlookup] at h
      simp [h]
    · simp [mlookup, hq] at h
      exact List.mem_cons_of_mem _ (ih h)

theorem mlookup_eq_none_iff {β : Type} (m : List (String × β)) (q : String) :
    mlookup m q = none ↔ q ∉ m.map Prod.fst := by
  induction m with
  | nil => simp [mlookup]
  | cons hd tl ih =>
    obtain ⟨k', v'⟩ := hd
    by_cases hq : q = k' <;> simp [mlookup, hq, ih]

theorem mlookup_isSome_of_mem {β : Type} {m : List (String × β)} {q : String} {v : β}
    (h : (q, v) ∈ m) : mlookup m q ≠ none := by
  intro hn
  exact ((mlookup_eq_none_iff m q).mp hn) (List.mem_map.mpr ⟨(q, v), h, rfl⟩)

/-! ## Job correlator (`subscriberT`, `initSubscriber`'s listener loop, `startJob`) -/

/-- Constant `managerInterface` from dbus.go line 11. -/
def managerInterface : String := "org.freedesktop.systemd1.Manager"

/-- The signal name the listener's `switch` matches: `managerInterface + ".JobRemoved"`. -/
def jobRemovedName : String := managerInterface ++ ".JobRemoved"

/-- The four values `dbus.Store(signal.Body, &id, &job, &unit, &result)` extracts
from a `JobRemoved` signal body (dbus.go lines 69-73).  `dbus.ObjectPath` is an
opaque comparable string. -/
structure JobRemovedBody where
  id : Nat
  job : String
  unit : String
  result : String
deriving DecidableEq

/-- One value read from the listener's signal channel: either a nil `*dbus.Signal`
or a signal with a name and a body.  Only `JobRemoved` bodies are ever decoded by
the code, so the body is carried in decoded form. -/
inductive SignalMsg where
  | nullSignal : SignalMsg
  | signal (name : String) (body : JobRemovedBody) : SignalMsg

/-- State of `subscriberT` (dbus.go lines 13-16) together with the heap of
completion channels the module creates.  `jobs` is the pending-job map
(job object path → channel); channels are identified by allocation order
(`make(chan string, 1)` in `startJob` allocates the next id), and `chans c`
is the sequence of strings written to channel `c` so far. -/
structure subscriberT where
  jobs : List (String × Nat)
  chans : Nat → List String
  nextChan : Nat

/-- One iteration of the listener goroutine installed by `initSubscriber`
(dbus.go lines 61-82): skip a nil signal; on a `JobRemoved` signal decode the
body, look the job path up in `s.jobs` under the lock, and if found send the
result string on that channel.  The entry is not deleted from the map. -/
def processSignal (s : subscriberT) (sig : SignalMsg) : subscriberT :=
  match sig with
  | .nullSignal => s
  | .signal name body =>
    if name = jobRemovedName then
      match mlookup s.jobs body.job with
      | some out =>
        { s with chans := fun c => if c = out then s.chans c ++ [body.result] else s.chans c }
      | none => s
    else s

/-- The listener processing a sequence of signals in arrival order. -/
def processSignals (s : subscriberT) (sigs : List SignalMsg) : subscriberT :=
  sigs.foldl processSignal s

/-- Function `startJob` (dbus.go lines 85-97): under the lock, make a fresh
capacity-one channel, issue the transport call, and on success register the
channel in `subscriber.jobs` under the returned job path and hand the channel
to the caller; on failure return the error with nothing registered.  The
outcome of `sysobj.Call(job, 0, args...).Store(&path)` is the oracle argument
`callRes` (the returned path, or the error). -/
def startJob (s : subscriberT) (callRes : Except String String) :
    subscriberT × Except String Nat :=
  let ch := s.nextChan
  let s₁ : subscriberT := { s with nextChan := s.nextChan + 1 }
  match callRes with
  | .error e => (s₁, .error e)
  | .ok path => ({ s₁ with jobs := minsert s₁.jobs path ch }, .ok ch)

/-- An event touching the correlator state: the listener processing one signal,
or some caller running `startJob` with a given transport outcome. -/
inductive SubAction where
  | deliver (sig : SignalMsg) : SubAction
  | enqueue (callRes : Except String String) : SubAction

/-- Apply one correlator event. -/
def stepAction (s : subscriberT) (a : SubAction) : subscriberT :=
  match a with
  | .deliver sig => processSignal s sig
  | .enqueue r => (startJob s r).1

/-- Apply a sequence of correlator events. -/
def runActions (s : subscriberT) (acts : List SubAction) : subscriberT :=
  acts.foldl stepAction s

/-! ## Snapshot-diff subscription engine (`UnitStatus`, `SubscribeUnitsCustom`) -/

/-- Structure `UnitStatus` (dbus.go lines 211-222).  `dbus.ObjectPath` fields are opaque
strings, `uint32` is a `Nat` (used only as data, never arithmetic). -/
structure UnitStatus where
  name : String
  description : String
  loadState : String
  activeState : String
  subState : String
  followed : String
  path : String
  jobId : Nat
  jobType : String
  jobPath : String
deriving DecidableEq

/-- Building `cur` from the fetched unit list (dbus.go lines 243-246):
`cur[units[i].Name] = &units[i]` for each index in order. -/
def buildCur (units : List UnitStatus) : List (String × UnitStatus) :=
  units.foldl (fun cur u => minsert cur u.name u) []

/-- The first loop of the diff (dbus.go lines 248-255): walk the entries of
`cur`; an entry absent from `old` or reported changed by `isChanged` goes into
`changed` mapped to its current record, and its name is deleted from the
(loop-local copy of) `old`.  Returns the accumulated `changed` map and what is
left of `old`. -/
def diffAddLoop (isChanged : UnitStatus → UnitStatus → Bool) :
    List (String × UnitStatus) → List (String × UnitStatus) →
    List (String × Option UnitStatus) →
    List (String × Option UnitStatus) × List (String × UnitStatus)
  | [], old, changed => (changed, old)
  | (n, u) :: rest, old, changed =>
    let changed' :=
      match mlookup old n with
      | none => minsert changed n (some u)
      | some oldU => if isChanged oldU u then minsert changed n (some u) else changed
    diffAddLoop isChanged rest (mdelete old n) changed'

/-- The second loop of the diff (dbus.go lines 257-260): every unit name still
left in `old` was deleted, so map it to `nil` (here `none`). -/
def diffDelLoop :
    List (String × UnitStatus) → List (String × Option UnitStatus) →
    List (String × Option UnitStatus)
  | [], changed => changed
  | (n, _) :: rest, changed => diffDelLoop rest (minsert changed n none)

/-- The full delta `changed` computed by one successful poll iteration of
`SubscribeUnitsCustom` (dbus.go lines 248-260) from the retained previous
snapshot `old` and the freshly built snapshot `cur`.  A `nil` entry of the Go
map is `none`. -/
def unitsDiff (isChanged : UnitStatus → UnitStatus → Bool)
    (old cur : List (String × UnitStatus)) : List (String × Option UnitStatus) :=
  diffDelLoop (diffAddLoop isChanged cur old []).2 (diffAddLoop isChanged cur old []).1

/-- Loop state of one `SubscribeUnitsCustom` goroutine: the retained previous
snapshot `old`, and the sequences of values sent so far on `statusChan` and
`errChan`. -/
structure PollerState where
  old : List (String × UnitStatus)
  statusChan : List (List (String × Option UnitStatus))
  errChan : List String
deriving DecidableEq

/-- One iteration of the polling loop (dbus.go lines 238-270), with the
outcome of `ListUnits()` passed as the oracle `fetch`.  On success build
`cur`, compute the delta, replace `old` with `cur` and send the delta on
`statusChan`; on failure send the error on `errChan` and leave everything
else alone. -/
def pollCycle (isChanged : UnitStatus → UnitStatus → Bool)
    (s : PollerState) (fetch : Except String (List UnitStatus)) : PollerState :=
  match fetch with
  | .ok units =>
    let cur := buildCur units
    let changed := unitsDiff isChanged s.old cur
    { old := cur, statusChan := s.statusChan ++ [changed], errChan := s.errChan }
  | .error e => { s with errChan := s.errChan ++ [e] }

/-- Run the polling loop over a sequence of fetch outcomes. -/
def runPoller (isChanged : UnitStatus → UnitStatus → Bool)
    (s : PollerState) (fetches : List (Except String (List UnitStatus))) : PollerState :=
  fetches.foldl (pollCycle isChanged) s

/-! ## Lookup characterization of the diff loops -/

theorem diffAddLoop_snd_lookup (isChanged : UnitStatus → UnitStatus → Bool) :
    ∀ (cur old : List (String × UnitStatus)) (changed : List (String × Option UnitStatus))
      (q : String),
    mlookup (diffAddLoop isChanged cur old changed).2 q =
      match mlookup cur q with
      | some _ => none
      | none => mlookup old q := by
  intro cur
  induction cur with
  | nil => intro old changed q; simp [diffAddLoop, mlookup]
  | cons hd rest ih =>
    intro old changed q
    obtain ⟨n, u⟩ := hd
    simp only [diffAddLoop]
    rw [ih]
    by_cases hq : q = n
    · subst hq
      rw [mlookup_mdelete]
      cases hrest : mlookup rest q <;> simp [mlookup, hrest]
    · rw [mlookup_mdelete]
      cases hrest : mlookup rest q <;> simp [mlookup, hrest, hq]

theorem diffAddLoop_fst_lookup (isChanged : UnitStatus → UnitStatus → Bool) :
    ∀ (cur old : List (String × UnitStatus)) (changed : List (String × Option UnitStatus))
      (q : String), (cur.map Prod.fst).Nodup →
    mlookup (diffAddLoop isChanged cur old changed).1 q =
      match mlookup cur q with
      | none => mlookup changed q
      | some u =>
        match mlookup old q with
        | none => some (some u)
        | some oldU => if isChanged oldU u then some (some u) else mlookup changed q := by
  intro cur
  induction cur with
  | nil => intro old changed q _; simp [diffAddLoop, mlookup]
  | cons hd rest ih =>
    intro old changed q hnd
    obtain ⟨n, u⟩ := hd
    simp only [List.map_cons, List.nodup_cons] at hnd
    obtain ⟨hn, hrest⟩ := hnd
    simp only [diffAddLoop]
    rw [ih _ _ _ hrest, mlookup_mdelete]
    by_cases hq : q = n
    · subst hq
      have hqrest : mlookup rest q = none :=
        (mlookup_eq_none_iff rest q).mpr hn
      rw [hqrest, if_pos rfl]
      cases hold : mlookup old q
      · simp [mlookup, mlookup_minsert]
      · rename_i oldU
        by_cases hch : isChanged oldU u
        · simp [mlookup, mlookup_minsert, hch]
        · simp [mlookup, hch]
    · have hcons : mlookup ((n, u) :: rest) q = mlookup rest q := by
        simp [mlookup, hq]
      rw [hcons, if_neg hq]
      cases hold : mlookup old n
      · cases hr2 : mlookup rest q <;> simp [mlookup_minsert, hq]
      · rename_i oldU
        by_cases hch : isChanged oldU u
        · cases hr2 : mlookup rest q <;> simp [mlookup_minsert, hq, hch]
        · cases hr2 : mlookup rest q <;> simp [hch]

theorem diffDelLoop_lookup :
    ∀ (oldLeft : List (String × UnitStatus)) (changed : List (String × Option UnitStatus))
      (q : String),
    mlookup (diffDelLoop oldLeft changed) q =
      match mlookup oldLeft q with
      | some _ => some none
      | none => mlookup changed q := by
  intro oldLeft
  induction oldLeft with
  | nil => intro changed q; simp [diffDelLoop, mlookup]
  | cons hd rest ih =>
    intro changed q
    obtain ⟨n, v⟩ := hd
    simp only [diffDelLoop]
    rw [ih, mlookup_minsert]
    by_cases hq : q = n
    · subst hq
      cases hrest : mlookup rest q <;> simp [mlookup, hrest]
    · cases hrest : mlookup rest q <;> simp [mlookup, hrest, hq]

theorem mlookup_snd_injective {m : List (String × Nat)} (hsnd : (m.map Prod.snd).Nodup)
    {p q : String} {cp cq : Nat} (hp : mlookup m p = some cp) (hq : mlookup m q = some cq)
    (hne : p ≠ q) : cp ≠ cq := by
  intro hcc
  subst hcc
  have heq := List.inj_on_of_nodup_map hsnd (mlookup_mem hp) (mlookup_mem hq) rfl
  exact hne (congrArg Prod.fst heq)

/-- Claim C2: for every previous snapshot, current snapshot and change
predicate, the delta computed by one successful poll cycle contains exactly:
every unit name present in `cur` that is absent from `old` or whose record is
reported changed, mapped to its current record; every unit name present in
`old` but absent from `cur`, mapped to the absence marker (`none`, Go `nil`);
and no entry for a unit name present in both with an unchanged record. -/
theorem unitsDiff_spec (isChanged : UnitStatus → UnitStatus → Bool)
    (old cur : List (String × UnitStatus)) (hcur : (cur.map Prod.fst).Nodup) (q : String) :
    mlookup (unitsDiff isChanged old cur) q =
      match mlookup cur q, mlookup old q with
      | some u, none => some (some u)
      | some u, some oldU => if isChanged oldU u then some (some u) else none
      | none, some _ => some none
      | none, none => none := by
  unfold unitsDiff
  rw [diffDelLoop_lookup, diffAddLoop_snd_lookup, diffAddLoop_fst_lookup _ _ _ _ _ hcur]
  cases hcq : mlookup cur q
  · cases hoq : mlookup old q <;> simp [mlookup]
  · rename_i u
    cases hoq : mlookup old q
    · simp [mlookup]
    · rename_i oldU
      by_cases hch : isChanged oldU u <;> simp [mlookup, hch]

/-- A concrete unit record used by the witnesses below. -/
def mkUnit (n d : String) : UnitStatus :=
  ⟨n, d, "loaded", "active", "running", "", "/org/freedesktop/systemd1/unit/x", 0, "", ""⟩

def unitA1 : UnitStatus := mkUnit ("a") ("one")

def unitA2 : UnitStatus := mkUnit ("a") ("two")

def unitB : UnitStatus := mkUnit ("b") ("bee")

def unitC : UnitStatus := mkUnit ("c") ("cee")

def prevSnap : List (String × UnitStatus) := [("a", unitA1), ("b", unitB)]

def curSnap : List (String × UnitStatus) := [("a", unitA2), ("c", unitC)]

/-- The default change predicate of `SubscribeUnits`: `*u1 != *u2`. -/
def neqUnits (u1 u2 : UnitStatus) : Bool := decide (¬ u1 = u2)

/-- Witness for `unitsDiff_spec`: the `{a changed, b removed, c added}` example
evaluated concretely. -/
theorem unitsDiff_spec_witness :
    (curSnap.map Prod.fst).Nodup ∧
    mlookup (unitsDiff neqUnits prevSnap curSnap) "a" = some (some unitA2) ∧
    mlookup (unitsDiff neqUnits prevSnap curSnap) "b" = some none ∧
    mlookup (unitsDiff neqUnits prevSnap curSnap) "c" = some (some unitC) := by
  refine ⟨by decide, ?_, ?_, ?_⟩
  · rw [unitsDiff_spec neqUnits prevSnap curSnap (by decide) "a"]
    decide
  · rw [unitsDiff_spec neqUnits prevSnap curSnap (by decide) "b"]
    decide
  · rw [unitsDiff_spec neqUnits prevSnap curSnap (by decide) "c"]
    decide

/-- Claim C3: a poll cycle whose fetch fails emits exactly one value on the
error stream and nothing on the delta stream, and leaves the retained previous
snapshot unchanged; consequently a later successful cycle diffs against the
last successfully fetched snapshot (the fail-between-two-successes scenario is
the last conjunct). -/
theorem pollCycle_fetch_error (isChanged : UnitStatus → UnitStatus → Bool)
    (s : PollerState) (e : String) :
    (pollCycle isChanged s (.error e)).errChan = s.errChan ++ [e] ∧
    (pollCycle isChanged s (.error e)).statusChan = s.statusChan ∧
    (pollCycle isChanged s (.error e)).old = s.old ∧
    (∀ units : List UnitStatus,
      (pollCycle isChanged (pollCycle isChanged s (.error e)) (.ok units)).statusChan
        = s.statusChan ++ [unitsDiff isChanged s.old (buildCur units)]) ∧
    (∀ u1 u3 : List UnitStatus,
      (runPoller isChanged s [.ok u1, .error e, .ok u3]).statusChan
        = s.statusChan ++ [unitsDiff isChanged s.old (buildCur u1),
                           unitsDiff isChanged (buildCur u1) (buildCur u3)] ∧
      (runPoller isChanged s [.ok u1, .error e, .ok u3]).errChan = s.errChan ++ [e] ∧
      (runPoller isChanged s [.ok u1, .error e, .ok u3]).old = buildCur u3) := by
  refine ⟨rfl, rfl, rfl, fun units => rfl, fun u1 u3 => ⟨?_, rfl, rfl⟩⟩
  simp [runPoller, pollCycle]

/-- Claim C7: a poll cycle whose fetch succeeds publishes the computed delta on
the delta stream (one emission even when the delta is the empty mapping) and
then replaces the retained previous snapshot with the newly fetched one. -/
theorem pollCycle_fetch_ok (isChanged : UnitStatus → UnitStatus → Bool)
    (s : PollerState) (units : List UnitStatus) :
    (pollCycle isChanged s (.ok units)).statusChan
      = s.statusChan ++ [unitsDiff isChanged s.old (buildCur units)] ∧
    (pollCycle isChanged s (.ok units)).statusChan.length = s.statusChan.length + 1 ∧
    (pollCycle isChanged s (.ok units)).old = buildCur units ∧
    (pollCycle isChanged s (.ok units)).errChan = s.errChan := by
  refine ⟨rfl, by simp [pollCycle], rfl, rfl⟩

/-- Claim C1: when the listener processes a `JobRemoved` event for job path
`body.job`, the result string is delivered only to the completion channel
registered under that exact path, never to a channel registered under any
other path (channels of distinct enqueued operations are distinct). -/
theorem processSignal_correlation (s : subscriberT) (body : JobRemovedBody)
    (hsnd : (s.jobs.map Prod.snd).Nodup) :
    (∀ q cq, q ≠ body.job → mlookup s.jobs q = some cq →
      (processSignal s (SignalMsg.signal jobRemovedName body)).chans cq = s.chans cq) ∧
    (∀ cp, mlookup s.jobs body.job = some cp →
      (processSignal s (SignalMsg.signal jobRemovedName body)).chans cp
        = s.chans cp ++ [body.result]) := by
  constructor
  · intro q cq hne hq
    cases hp : mlookup s.jobs body.job
    · simp [processSignal, hp]
    · rename_i cp
      have hcc : cq ≠ cp := mlookup_snd_injective hsnd hq hp hne
      simp [processSignal, hp, hcc]
  · intro cp hp
    simp [processSignal, hp]

/-! ## Concrete states for witnesses and counterexamples -/

def jobPath1 : String := "/org/freedesktop/systemd1/job/1"

def jobPath2 : String := "/org/freedesktop/systemd1/job/2"

/-- A correlator state with a single pending job under `jobPath1` on channel 0. -/
def sampleState : subscriberT :=
  { jobs := [(jobPath1, 0)], chans := fun _ => [], nextChan := 1 }

/-- A correlator state with two pending jobs under distinct paths. -/
def twoJobState : subscriberT :=
  { jobs := [(jobPath1, 0), (jobPath2, 1)], chans := fun _ => [], nextChan := 2 }

/-- A decoded `JobRemoved` body for `jobPath1`. -/
def sampleBody : JobRemovedBody :=
  { id := 1, job := jobPath1, unit := "x.service", result := "done" }

/-- A decoded `JobRemoved` body whose path is registered in no sample state. -/
def unknownBody : JobRemovedBody :=
  { id := 9, job := "/org/freedesktop/systemd1/job/99", unit := "y.service", result := "failed" }

/-- The `JobRemoved` signal for `sampleBody`. -/
def sampleSignal : SignalMsg := SignalMsg.signal jobRemovedName sampleBody

/-- Witness for `processSignal_correlation`: in `twoJobState` the event for
`jobPath1` feeds channel 0 and leaves channel 1 (registered under `jobPath2`)
untouched. -/
theorem processSignal_correlation_witness :
    ((twoJobState.jobs.map Prod.snd).Nodup ∧ jobPath2 ≠ jobPath1 ∧
      mlookup twoJobState.jobs jobPath2 = some 1 ∧
      mlookup twoJobState.jobs jobPath1 = some 0) ∧
    (processSignal twoJobState sampleSignal).chans 1 = twoJobState.chans 1 ∧
    (processSignal twoJobState sampleSignal).chans 0
      = twoJobState.chans 0 ++ [sampleBody.result] := by
  refine ⟨by decide, ?_, ?_⟩
  · exact (processSignal_correlation twoJobState sampleBody (by decide)).1
      jobPath2 1 (by decide) (by decide)
  · exact (processSignal_correlation twoJobState sampleBody (by decide)).2 0 (by decide)

/-- Counterexample to claim C4 as stated: processing the matching `JobRemoved`
event delivers the result to channel 0 but does not remove the pending entry —
the job path is still mapped in the table afterwards. -/
theorem processSignal_no_delete_cex :
    (processSignal sampleState sampleSignal).chans 0 = ["done"] ∧
    (processSignal sampleState sampleSignal).jobs = sampleState.jobs ∧
    mlookup (processSignal sampleState sampleSignal).jobs jobPath1 = some 0 := by
  refine ⟨by decide, by decide, by decide⟩

/-- Claim C4 (amended): when the listener processes a `JobRemoved` event whose
job path is present in the pending-job table, it delivers the result to that
entry's completion channel, but it does not remove the entry: the pending-job
table is left unchanged. -/
theorem processSignal_matched_delivers (s : subscriberT) (body : JobRemovedBody) (cp : Nat)
    (hp : mlookup s.jobs body.job = some cp) :
    (processSignal s (SignalMsg.signal jobRemovedName body)).chans cp
      = s.chans cp ++ [body.result] ∧
    (processSignal s (SignalMsg.signal jobRemovedName body)).jobs = s.jobs := by
  constructor
  · simp [processSignal, hp]
  · simp [processSignal, hp]

/-- Witness for `processSignal_matched_delivers` at `sampleState`. -/
theorem processSignal_matched_delivers_witness :
    mlookup sampleState.jobs sampleBody.job = some 0 ∧
    (processSignal sampleState sampleSignal).chans 0
      = sampleState.chans 0 ++ [sampleBody.result] ∧
    (processSignal sampleState sampleSignal).jobs = sampleState.jobs := by
  have h := processSignal_matched_delivers sampleState sampleBody 0 (by decide)
  exact ⟨by decide, h.1, h.2⟩

/-- Claim C5: when the underlying transport call fails, `startJob` returns the
error, the pending-job table is unchanged (no completion channel is registered
under any path), and no channel receives anything. -/
theorem startJob_error_frame (s : subscriberT) (e : String) :
    (startJob s (.error e)).1.jobs = s.jobs ∧
    (startJob s (.error e)).1.chans = s.chans ∧
    (startJob s (.error e)).2 = Except.error e := by
  exact ⟨rfl, rfl, rfl⟩

/-- Claim C6: a `JobRemoved` event whose job path is not in the pending-job
table leaves the whole correlator state unchanged (no error is raised, the
table is untouched, nothing is written to any channel). -/
theorem processSignal_unmatched (s : subscriberT) (body : JobRemovedBody)
    (h : mlookup s.jobs body.job = none) :
    processSignal s (SignalMsg.signal jobRemovedName body) = s := by
  simp [processSignal, h]

/-- Witness for `processSignal_unmatched`: an event for an unregistered path. -/
theorem processSignal_unmatched_witness :
    mlookup sampleState.jobs unknownBody.job = none ∧
    processSignal sampleState (SignalMsg.signal jobRemovedName unknownBody) = sampleState :=
  ⟨by decide, processSignal_unmatched sampleState unknownBody (by decide)⟩

/-- Claim C10: a nil signal, or a signal whose name is not
`org.freedesktop.systemd1.Manager.JobRemoved`, leaves the correlator state
completely unchanged. -/
theorem processSignal_other_frame (s : subscriberT) :
    processSignal s SignalMsg.nullSignal = s ∧
    ∀ (name : String) (body : JobRemovedBody), name ≠ jobRemovedName →
      processSignal s (SignalMsg.signal name body) = s := by
  constructor
  · rfl
  · intro name body hne
    simp [processSignal, hne]

/-- Name of an unrelated D-Bus signal, used by the frame witness. -/
def propsChangedName : String := "org.freedesktop.DBus.Properties.PropertiesChanged"

/-- Witness for `processSignal_other_frame`: a `PropertiesChanged`-style name. -/
theorem processSignal_other_frame_witness :
    propsChangedName ≠ jobRemovedName ∧
    processSignal sampleState (SignalMsg.signal propsChangedName sampleBody) = sampleState ∧
    processSignal sampleState SignalMsg.nullSignal = sampleState :=
  ⟨by decide,
    (processSignal_other_frame sampleState).2 propsChangedName sampleBody (by decide),
    (processSignal_other_frame sampleState).1⟩

/-! ## Frame lemmas for the listener and write counting -/

theorem processSignal_jobs (s : subscriberT) (sig : SignalMsg) :
    (processSignal s sig).jobs = s.jobs := by
  cases sig with
  | nullSignal => rfl
  | signal name body =>
    by_cases hn : name = jobRemovedName
    · cases hl : mlookup s.jobs body.job <;> simp [processSignal, hn, hl]
    · simp [processSignal, hn]

theorem processSignal_nextChan (s : subscriberT) (sig : SignalMsg) :
    (processSignal s sig).nextChan = s.nextChan := by
  cases sig with
  | nullSignal => rfl
  | signal name body =>
    by_cases hn : name = jobRemovedName
    · cases hl : mlookup s.jobs body.job <;> simp [processSignal, hn, hl]
    · simp [processSignal, hn]

/-- The result strings of those `JobRemoved` signals in `sigs` that carry job
path `p`, in arrival order. -/
def matchingResults (p : String) (sigs : List SignalMsg) : List String :=
  sigs.filterMap fun sig =>
    match sig with
    | .nullSignal => none
    | .signal name body =>
      if name = jobRemovedName ∧ body.job = p then some body.result else none

/-- Counterexample to claim C8 as stated: because the pending entry is never
removed, a second `JobRemoved` event carrying the same job path writes a second
value to the same completion channel. -/
theorem processSignals_double_write_cex :
    (processSignals sampleState [sampleSignal, sampleSignal]).chans 0 = ["done", "done"] := by
  decide

/-- Claim C8 (amended): a completion channel registered under job path `p`
receives exactly one value per `JobRemoved` event carrying `p` that the
listener processes — the writes to the channel are precisely the results of
those events, so at most one value is written only when at most one processed
event carries the path. -/
theorem processSignals_channel_writes :
    ∀ (sigs : List SignalMsg) (s : subscriberT) (p : String) (ch : Nat),
    (s.jobs.map Prod.snd).Nodup → mlookup s.jobs p = some ch →
    (processSignals s sigs).chans ch = s.chans ch ++ matchingResults p sigs := by
  intro sigs
  induction sigs with
  | nil =>
    intro s p ch _ _
    simp [processSignals, matchingResults]
  | cons sig rest ih =>
    intro s p ch hsnd hp
    have hstep : processSignals s (sig :: rest) = processSignals (processSignal s sig) rest := rfl
    have hsnd' : ((processSignal s sig).jobs.map Prod.snd).Nodup := by
      rw [processSignal_jobs]; exact hsnd
    have hp' : mlookup (processSignal s sig).jobs p = some ch := by
      rw [processSignal_jobs]; exact hp
    rw [hstep, ih _ _ _ hsnd' hp']
    cases sig with
    | nullSignal =>
      simp [processSignal, matchingResults]
    | signal name body =>
      by_cases hn : name = jobRemovedName
      · subst hn
        cases hl : mlookup s.jobs body.job with
        | none =>
          have hbp : body.job ≠ p := by
            intro h
            rw [h, hp] at hl
            cases hl
          simp [processSignal, hl, matchingResults, hbp]
        | some out =>
          by_cases hbp : body.job = p
          · have hout : out = ch := by
              rw [hbp, hp] at hl
              exact (Option.some_inj.mp hl).symm
            subst hout
            simp [processSignal, hp, hl, matchingResults, hbp]
          · have hco : ch ≠ out := mlookup_snd_injective hsnd hp hl fun h => hbp h.symm
            simp [processSignal, hl, matchingResults, hbp, hco]
      · simp [processSignal, hn, matchingResults]

/-- Witness for `processSignals_channel_writes` at `sampleState` with two
matching events. -/
theorem processSignals_channel_writes_witness :
    ((sampleState.jobs.map Prod.snd).Nodup ∧ mlookup sampleState.jobs jobPath1 = some 0) ∧
    (processSignals sampleState [sampleSignal, sampleSignal]).chans 0
      = sampleState.chans 0 ++ matchingResults jobPath1 [sampleSignal, sampleSignal] :=
  ⟨⟨by decide, by decide⟩,
    processSignals_channel_writes [sampleSignal, sampleSignal] sampleState jobPath1 0
      (by decide) (by decide)⟩

/-! ## Registration invariants and overwrite behaviour (`startJob`) -/

theorem mem_map_fst_minsert {β : Type} {m : List (String × β)} {k x : String} {v : β}
    (hx : x ∈ (minsert m k v).map Prod.fst) : x ∈ m.map Prod.fst ∨ x = k := by
  induction m with
  | nil =>
    simp [minsert] at hx
    exact Or.inr hx
  | cons hd rest ih =>
    obtain ⟨k', v'⟩ := hd
    by_cases hk : k = k'
    · subst hk
      simp [minsert] at hx
      rcases hx with h | h
      · exact Or.inr h
      · exact Or.inl (by simp [h])
    · simp [minsert, hk] at hx
      rcases hx with h | h
      · exact Or.inl (by simp [h])
      · rcases ih (by simpa using h) with h2 | h2
        · exact Or.inl (by simp at h2 ⊢; exact Or.inr h2)
        · exact Or.inr h2

theorem mem_map_snd_minsert {m : List (String × Nat)} {k : String} {v x : Nat}
    (hx : x ∈ (minsert m k v).map Prod.snd) : x ∈ m.map Prod.snd ∨ x = v := by
  induction m with
  | nil =>
    simp [minsert] at hx
    exact Or.inr hx
  | cons hd rest ih =>
    obtain ⟨k', v'⟩ := hd
    by_cases hk : k = k'
    · subst hk
      simp [minsert] at hx
      rcases hx with h | h
      · exact Or.inr h
      · exact Or.inl (by simp [h])
    · simp [minsert, hk] at hx
      rcases hx with h | h
      · exact Or.inl (by simp [h])
      · rcases ih (by simpa using h) with h2 | h2
        · exact Or.inl (by simp at h2 ⊢; exact Or.inr h2)
        · exact Or.inr h2

theorem nodup_map_fst_minsert {β : Type} {m : List (String × β)} (k : String) (v : β)
    (h : (m.map Prod.fst).Nodup) : ((minsert m k v).map Prod.fst).Nodup := by
  induction m with
  | nil => simp [minsert]
  | cons hd rest ih =>
    obtain ⟨k', v'⟩ := hd
    simp only [List.map_cons, List.nodup_cons] at h
    obtain ⟨hk', hrest⟩ := h
    by_cases hk : k = k'
    · subst hk
      simp [minsert, hk', hrest]
    · simp only [minsert, if_neg hk, List.map_cons, List.nodup_cons]
      refine ⟨?_, ih hrest⟩
      intro hmem
      rcases mem_map_fst_minsert hmem with h2 | h2
      · exact hk' h2
      · exact hk h2.symm

theorem not_mem_map_snd_minsert {m : List (String × Nat)} (hsnd : (m.map Prod.snd).Nodup)
    {p : String} {c v : Nat} (hp : mlookup m p = some c) (hcv : c ≠ v) :
    c ∉ (minsert m p v).map Prod.snd := by
  induction m with
  | nil => simp [mlookup] at hp
  | cons hd rest ih =>
    obtain ⟨k', w⟩ := hd
    simp only [List.map_cons, List.nodup_cons] at hsnd
    obtain ⟨hw, hrest⟩ := hsnd
    by_cases hk : p = k'
    · subst hk
      have hcw : w = c := by
        simpa [mlookup] using hp
      subst hcw
      simp [minsert, hcv, hw]
    · have hp' : mlookup rest p = some c := by
        simpa [mlookup, hk] using hp
      have hcw : c ≠ w := by
        intro h
        subst h
        exact hw (List.mem_map.mpr ⟨(p, c), mlookup_mem hp', rfl⟩)
      simp only [minsert, if_neg hk, List.map_cons, List.mem_cons]
      intro hmem
      rcases hmem with h | h
      · exact hcw h
      · exact ih hrest hp' h

/-- A channel id that is registered under no path and below the allocation
counter is never written to by any later trace of listener deliveries and
`startJob` calls. -/
theorem runActions_chans_frame (c : Nat) :
    ∀ (acts : List SubAction) (s : subscriberT),
    c ∉ s.jobs.map Prod.snd → c < s.nextChan →
    (runActions s acts).chans c = s.chans c := by
  intro acts
  induction acts with
  | nil => intro s _ _; rfl
  | cons a rest ih =>
    intro s hmem hlt
    have hstep : runActions s (a :: rest) = runActions (stepAction s a) rest := rfl
    rw [hstep]
    cases a with
    | deliver sig =>
      have hchan : (processSignal s sig).chans c = s.chans c := by
        cases sig with
        | nullSignal => rfl
        | signal name body =>
          by_cases hn : name = jobRemovedName
          · cases hl : mlookup s.jobs body.job with
            | none => simp [processSignal, hn, hl]
            | some out =>
              have hco : c ≠ out := by
                intro h
                subst h
                exact hmem (List.mem_map.mpr ⟨(body.job, c), mlookup_mem hl, rfl⟩)
              simp [processSignal, hn, hl, hco]
          · simp [processSignal, hn]
      have hmem' : c ∉ (processSignal s sig).jobs.map Prod.snd := by
        rw [processSignal_jobs]; exact hmem
      have hlt' : c < (processSignal s sig).nextChan := by
        rw [processSignal_nextChan]; exact hlt
      rw [show stepAction s (SubAction.deliver sig) = processSignal s sig from rfl,
        ih _ hmem' hlt', hchan]
    | enqueue r =>
      cases r with
      | error e =>
        exact ih { s with nextChan := s.nextChan + 1 } hmem (Nat.lt_succ_of_lt hlt)
      | ok path =>
        have hmem' : c ∉ (minsert s.jobs path s.nextChan).map Prod.snd := by
          intro hc
          rcases mem_map_snd_minsert hc with h | h
          · exact hmem h
          · exact Nat.ne_of_lt hlt h
        exact ih _ hmem' (Nat.lt_succ_of_lt hlt)

/-- Claim C9: the pending-job table keeps at most one completion channel per
job path (its keys stay pairwise distinct); a second `startJob` registration
under an already-registered path overwrites the first channel with the fresh
one, and the overwritten channel is never written to by any subsequent trace
of listener deliveries and `startJob` calls. -/
theorem startJob_overwrite (s : subscriberT) (p : String) (c₁ : Nat)
    (hkeys : (s.jobs.map Prod.fst).Nodup)
    (hsnd : (s.jobs.map Prod.snd).Nodup)
    (hbound : ∀ e ∈ s.jobs, e.2 < s.nextChan)
    (h₁ : mlookup s.jobs p = some c₁) :
    mlookup ((startJob s (.ok p)).1).jobs p = some s.nextChan ∧
    c₁ ≠ s.nextChan ∧
    (((startJob s (.ok p)).1).jobs.map Prod.fst).Nodup ∧
    (∀ q c, mlookup ((startJob s (.ok p)).1).jobs q = some c → c ≠ c₁) ∧
    (∀ acts : List SubAction,
      (runActions ((startJob s (.ok p)).1) acts).chans c₁ = s.chans c₁) := by
  have hlt : c₁ < s.nextChan := hbound (p, c₁) (mlookup_mem h₁)
  have hne : c₁ ≠ s.nextChan := Nat.ne_of_lt hlt
  have hjobs : ((startJob s (.ok p)).1).jobs = minsert s.jobs p s.nextChan := rfl
  have hout : c₁ ∉ (minsert s.jobs p s.nextChan).map Prod.snd :=
    not_mem_map_snd_minsert hsnd h₁ hne
  refine ⟨?_, hne, ?_, ?_, ?_⟩
  · rw [hjobs, mlookup_minsert, if_pos rfl]
  · rw [hjobs]
    exact nodup_map_fst_minsert p s.nextChan hkeys
  · intro q c hq hcc
    rw [hjobs] at hq
    apply hout
    rw [← hcc]
    exact List.mem_map.mpr ⟨(q, c), mlookup_mem hq, rfl⟩
  · intro acts
    have hframe := runActions_chans_frame c₁ acts ((startJob s (.ok p)).1)
      (by rw [hjobs]; exact hout) (Nat.lt_succ_of_lt hlt)
    rw [hframe]
    rfl

/-- Witness for `startJob_overwrite`: re-registering `jobPath1` in
`sampleState` moves the path to fresh channel 1, and the overwritten channel 0
stays empty even after the matching `JobRemoved` event is processed. -/
theorem startJob_overwrite_witness :
    ((sampleState.jobs.map Prod.fst).Nodup ∧ (sampleState.jobs.map Prod.snd).Nodup ∧
      (∀ e ∈ sampleState.jobs, e.2 < sampleState.nextChan) ∧
      mlookup sampleState.jobs jobPath1 = some 0) ∧
    mlookup ((startJob sampleState (.ok jobPath1)).1).jobs jobPath1 = some 1 ∧
    (runActions ((startJob sampleState (.ok jobPath1)).1)
        [SubAction.deliver sampleSignal]).chans 0 = sampleState.chans 0 := by
  have h := startJob_overwrite sampleState jobPath1 0
    (by decide) (by decide) (by decide) (by decide)
  exact ⟨⟨by decide, by decide, by decide, by decide⟩, h.1,
    h.2.2.2.2 [SubAction.deliver sampleSignal]⟩
